import Mathlib

/-!
Shallow embedding of `caospy/_pde_problems/adjoint_problem.py` (class
`AdjointProblem`): the configuration handling of `__init__` and the
`solve` method with its cached path, direct strategy and Picard strategy.

Modelling conventions:
* Python floats are modelled as exact rationals `ℚ`.
* External collaborators (fenics assembly, the PETSc/fenics solves, the
  forward `StateProblem`) are abstracted into an `Env`: the combined
  residual norm observed at each Picard sweep is an oracle
  `res : ℕ → ℚ` giving the value of the Python variable `res` after
  `res = np.sqrt(res)` (the pre-sqrt sum of squares is zero exactly when
  this value is zero, since the sum of squares is nonnegative), and the
  effect of one subsystem solve on the adjoint buffers is an oracle
  `applySolve`.
* Side effects are made explicit: `solve` returns a `SolveResult`
  recording the new object state, the returned buffers, a trace of the
  collaborator calls in order, and every denominator actually used in
  the expression `res / res_0`.
* `raise SystemExit` is modelled as `ok = false` in the result, together
  with the object state at the moment of the raise; verbose printing is
  pure observability and produces no events.
-/

/-- Configuration section `StateEquation` as read by `__init__`: each
entry may be absent, in which case the fallback value is used. -/
structure RawConfig where
  picard_rtol : Option ℚ
  picard_atol : Option ℚ
  picard_iter : Option ℕ
  picard_verbose : Option Bool
deriving DecidableEq

/-- State of an `AdjointProblem` object: the parameters read in
`__init__` plus the solution cache flag, the solve counter and the
adjoint-variable buffers. -/
structure AdjointProblem where
  rtol : ℚ
  atol : ℚ
  maxiter : ℕ
  picard_verbose : Bool
  number_of_solves : ℕ
  has_solution : Bool
  adjoints : List ℚ
deriving DecidableEq

/-- Embedding of `AdjointProblem.__init__`: reads `picard_rtol`,
`picard_atol`, `picard_iter` and `picard_verbose` from the
`StateEquation` section with fallbacks `1e-10`, `1e-12`, `50`, `False`,
and starts with `number_of_solves = 0` and `has_solution = False`.
The initial adjoint buffers come from the form handler. -/
def initAdjointProblem (cfg : RawConfig) (adjoints0 : List ℚ) : AdjointProblem where
  rtol := cfg.picard_rtol.getD (1 / 10 ^ 10)
  atol := cfg.picard_atol.getD (1 / 10 ^ 12)
  maxiter := cfg.picard_iter.getD 50
  picard_verbose := cfg.picard_verbose.getD false
  number_of_solves := 0
  has_solution := false
  adjoints := adjoints0

/-- Observable collaborator calls made during `solve`, in order:
`ensureState` is `self.state_problem.solve()`, `directSolve i` is the
ksp solve for subsystem `i` on the direct path, `picardSolve i` is the
`fenics.solve` for subsystem `i` inside a Picard sweep. -/
inductive Event where
  | ensureState : Event
  | directSolve : ℕ → Event
  | picardSolve : ℕ → Event
deriving DecidableEq

/-- External world of one `solve` call: `state_dim` and the coupling
flag `state_is_picard` from the form handler, the combined residual norm
observed at each Picard sweep index, and the effect of solving one
subsystem on the adjoint buffers. -/
structure Env where
  state_dim : ℕ
  state_is_picard : Bool
  res : ℕ → ℚ
  applySolve : ℕ → List ℚ → List ℚ

/-- Subsystem indices in the order visited by
`for i in range(state_dim)` with Python index `-1 - i`: on a list of
length `state_dim` this resolves to `state_dim - 1 - i`. -/
def revIndices (n : ℕ) : List ℕ :=
  (List.range n).map (fun i => n - 1 - i)

/-- Why the Picard loop stopped: the exact-zero residual break, the
tolerance break, or the `SystemExit` raised at sweep `maxiter`. The
first two are the converged outcomes. -/
inductive StopReason where
  | zeroRes : StopReason
  | tol : StopReason
  | fail : StopReason
deriving DecidableEq

/-- Result of the Picard loop: `ok` is `false` exactly when
`SystemExit` was raised, `stopSweep` is the sweep index at which the
loop exited, `buffers` are the adjoint buffers at that moment, `events`
is the trace of subsystem solves, and `divisors` records every
denominator used in `res / res_0`. -/
structure PicardResult where
  ok : Bool
  stopSweep : ℕ
  stopReason : StopReason
  buffers : List ℚ
  events : List Event
  divisors : List ℚ
deriving DecidableEq

/-- Translation of the loop `for i in range(self.maxiter + 1)` in
`AdjointProblem.solve`, recursing on the number of remaining loop
iterations. The fuel-0 fall-through is unreachable from `runPicard`
because the source raises at `i == maxiter`, one iteration before the
range is exhausted. -/
def picardLoop (ap : AdjointProblem) (env : Env) :
    ℕ → ℕ → ℚ → List ℚ → List Event → List ℚ → PicardResult
  | 0, i, _, bufs, evs, divs =>
      ⟨false, i, StopReason.fail, bufs, evs, divs⟩
  | fuel + 1, i, r0, bufs, evs, divs =>
      if env.res i = 0 then
        ⟨true, i, StopReason.zeroRes, bufs, evs, divs⟩
      else
        let r0i := if i = 0 then env.res i else r0
        if env.res i / r0i < ap.rtol ∨ env.res i < ap.atol then
          ⟨true, i, StopReason.tol, bufs, evs, divs ++ [r0i]⟩
        else if i = ap.maxiter then
          ⟨false, i, StopReason.fail, bufs, evs, divs ++ [r0i]⟩
        else
          picardLoop ap env fuel (i + 1) r0i
            ((revIndices env.state_dim).foldl (fun b j => env.applySolve j b) bufs)
            (evs ++ (revIndices env.state_dim).map Event.picardSolve)
            (divs ++ [r0i])

/-- Picard branch of `solve`: run the loop from sweep 0 with
`maxiter + 1` available iterations, starting from the current adjoint
buffers. In the source `res_0` is not yet bound before sweep 0; it is
always assigned at sweep 0 before any use, so the initial value `0`
passed here is never read. -/
def runPicard (ap : AdjointProblem) (env : Env) : PicardResult :=
  picardLoop ap env (ap.maxiter + 1) 0 0 ap.adjoints [] []

/-- Result of one `solve` call: `ok` is `false` exactly when
`SystemExit` was raised; `state` is the object state after the call (or
at the moment of the raise); `ret` is the returned list of adjoint
buffers (meaningful only when `ok`, since `SystemExit` never returns);
`events` is the ordered collaborator trace and `divisors` the recorded
denominators of `res / res_0`. -/
structure SolveResult where
  ok : Bool
  state : AdjointProblem
  ret : List ℚ
  events : List Event
  divisors : List ℚ
deriving DecidableEq

/-- Embedding of `AdjointProblem.solve`: first call the state problem,
then, if no cached solution is present, run the direct strategy or the
Picard strategy; on success set `has_solution` and increment
`number_of_solves`, then return `self.adjoints`. -/
def AdjointProblem.solve (ap : AdjointProblem) (env : Env) : SolveResult :=
  if ap.has_solution then
    ⟨true, ap, ap.adjoints, [Event.ensureState], []⟩
  else if env.state_is_picard = false then
    let bufs := (revIndices env.state_dim).foldl (fun b j => env.applySolve j b) ap.adjoints
    ⟨true,
      { ap with has_solution := true, number_of_solves := ap.number_of_solves + 1,
                adjoints := bufs },
      bufs,
      Event.ensureState :: (revIndices env.state_dim).map Event.directSolve,
      []⟩
  else
    let pr := runPicard ap env
    if pr.ok then
      ⟨true,
        { ap with has_solution := true, number_of_solves := ap.number_of_solves + 1,
                  adjoints := pr.buffers },
        pr.buffers,
        Event.ensureState :: pr.events,
        pr.divisors⟩
    else
      ⟨false, { ap with adjoints := pr.buffers }, [],
        Event.ensureState :: pr.events, pr.divisors⟩

/-- Object state after `n` successive `solve` calls in a fixed
environment. -/
def solveN (env : Env) (ap : AdjointProblem) : ℕ → AdjointProblem
  | 0 => ap
  | n + 1 => ((solveN env ap n).solve env).state

/-! ### Basic facts about the loop and the index order -/

/-- The visiting order `state_dim - 1 - i` for `i = 0, 1, ...` is exactly
the reversed enumeration `N-1, N-2, ..., 0`. -/
lemma revIndices_eq_reverse_range (n : ℕ) :
    revIndices n = (List.range n).reverse := by
  rw [revIndices, List.range_eq_range', List.reverse_range']
  simp [← List.range_eq_range']

/-- The visiting order is strictly decreasing. -/
lemma revIndices_chain (n : ℕ) :
    List.Chain' (fun a b => b < a) (revIndices n) := by
  rw [revIndices_eq_reverse_range]
  apply List.Pairwise.chain'
  rw [List.pairwise_reverse]
  exact List.pairwise_lt_range n

lemma length_flatten_replicate {α : Type} (n : ℕ) (l : List α) :
    (List.flatten (List.replicate n l)).length = n * l.length := by
  simp [List.length_flatten, List.map_replicate, List.sum_replicate, smul_eq_mul]

/-- Loop step: the exact-zero residual break. -/
lemma picardLoop_step_zero (ap : AdjointProblem) (env : Env)
    (fuel i : ℕ) (r0 : ℚ) (bufs : List ℚ) (evs : List Event) (divs : List ℚ)
    (h : env.res i = 0) :
    picardLoop ap env (fuel + 1) i r0 bufs evs divs =
      ⟨true, i, StopReason.zeroRes, bufs, evs, divs⟩ := by
  simp [picardLoop, h]

/-- Loop step: the tolerance break. -/
lemma picardLoop_step_tol (ap : AdjointProblem) (env : Env)
    (fuel i : ℕ) (r0 : ℚ) (bufs : List ℚ) (evs : List Event) (divs : List ℚ)
    (h0 : ¬ env.res i = 0)
    (h1 : env.res i / (if i = 0 then env.res i else r0) < ap.rtol ∨ env.res i < ap.atol) :
    picardLoop ap env (fuel + 1) i r0 bufs evs divs =
      ⟨true, i, StopReason.tol, bufs, evs, divs ++ [if i = 0 then env.res i else r0]⟩ := by
  simp only [picardLoop]
  rw [if_neg h0, if_pos h1]

/-- Loop step: the `SystemExit` raise at `i == maxiter`. -/
lemma picardLoop_step_fail (ap : AdjointProblem) (env : Env)
    (fuel i : ℕ) (r0 : ℚ) (bufs : List ℚ) (evs : List Event) (divs : List ℚ)
    (h0 : ¬ env.res i = 0)
    (h1 : ¬ (env.res i / (if i = 0 then env.res i else r0) < ap.rtol ∨ env.res i < ap.atol))
    (h2 : i = ap.maxiter) :
    picardLoop ap env (fuel + 1) i r0 bufs evs divs =
      ⟨false, i, StopReason.fail, bufs, evs, divs ++ [if i = 0 then env.res i else r0]⟩ := by
  simp only [picardLoop]
  rw [if_neg h0, if_neg h1, if_pos h2]

/-- Loop step: one full Picard sweep followed by the next iteration. -/
lemma picardLoop_step_sweep (ap : AdjointProblem) (env : Env)
    (fuel i : ℕ) (r0 : ℚ) (bufs : List ℚ) (evs : List Event) (divs : List ℚ)
    (h0 : ¬ env.res i = 0)
    (h1 : ¬ (env.res i / (if i = 0 then env.res i else r0) < ap.rtol ∨ env.res i < ap.atol))
    (h2 : ¬ i = ap.maxiter) :
    picardLoop ap env (fuel + 1) i r0 bufs evs divs =
      picardLoop ap env fuel (i + 1) (if i = 0 then env.res i else r0)
        ((revIndices env.state_dim).foldl (fun b j => env.applySolve j b) bufs)
        (evs ++ (revIndices env.state_dim).map Event.picardSolve)
        (divs ++ [if i = 0 then env.res i else r0]) := by
  simp only [picardLoop]
  rw [if_neg h0, if_neg h1, if_neg h2]

/-- Trace characterization: starting at sweep `i`, the loop appends one
block of reverse-order subsystem solves per sweep actually performed,
and it stops at a sweep index no smaller than `i`. -/
lemma picardLoop_events (ap : AdjointProblem) (env : Env) :
    ∀ fuel i r0 bufs evs divs,
      i ≤ (picardLoop ap env fuel i r0 bufs evs divs).stopSweep ∧
      (picardLoop ap env fuel i r0 bufs evs divs).events =
        evs ++ List.flatten (List.replicate
          ((picardLoop ap env fuel i r0 bufs evs divs).stopSweep - i)
          ((revIndices env.state_dim).map Event.picardSolve)) := by
  intro fuel
  induction fuel with
  | zero =>
      intro i r0 bufs evs divs
      simp [picardLoop]
  | succ fuel ih =>
      intro i r0 bufs evs divs
      by_cases h0 : env.res i = 0
      · rw [picardLoop_step_zero ap env fuel i r0 bufs evs divs h0]
        simp
      · by_cases h1 : env.res i / (if i = 0 then env.res i else r0) < ap.rtol ∨
            env.res i < ap.atol
        · rw [picardLoop_step_tol ap env fuel i r0 bufs evs divs h0 h1]
          simp
        · by_cases h2 : i = ap.maxiter
          · rw [picardLoop_step_fail ap env fuel i r0 bufs evs divs h0 h1 h2]
            simp
          · rw [picardLoop_step_sweep ap env fuel i r0 bufs evs divs h0 h1 h2]
            obtain ⟨hle, hev⟩ := ih (i + 1) (if i = 0 then env.res i else r0)
              ((revIndices env.state_dim).foldl (fun b j => env.applySolve j b) bufs)
              (evs ++ (revIndices env.state_dim).map Event.picardSolve)
              (divs ++ [if i = 0 then env.res i else r0])
            refine ⟨by omega, ?_⟩
            rw [hev]
            have hs : (picardLoop ap env fuel (i + 1) (if i = 0 then env.res i else r0)
                ((revIndices env.state_dim).foldl (fun b j => env.applySolve j b) bufs)
                (evs ++ (revIndices env.state_dim).map Event.picardSolve)
                (divs ++ [if i = 0 then env.res i else r0])).stopSweep - i =
                ((picardLoop ap env fuel (i + 1) (if i = 0 then env.res i else r0)
                ((revIndices env.state_dim).foldl (fun b j => env.applySolve j b) bufs)
                (evs ++ (revIndices env.state_dim).map Event.picardSolve)
                (divs ++ [if i = 0 then env.res i else r0])).stopSweep - (i + 1)) + 1 := by
              omega
            rw [hs, List.replicate_succ, List.flatten_cons, List.append_assoc]

/-- Stop characterization, tolerance case: if the residual is nonzero up
to sweep `k`, no earlier sweep meets the strict criterion, and sweep `k`
meets it, then the loop (started at any sweep `i ≤ k` with the correctly
recorded reference) stops at sweep `k` with the tolerance break. -/
lemma picardLoop_tol_stop (ap : AdjointProblem) (env : Env) (k : ℕ)
    (hk : k ≤ ap.maxiter)
    (hnz : ∀ m, m ≤ k → env.res m ≠ 0)
    (hbefore : ∀ m, m < k → ¬ (env.res m / env.res 0 < ap.rtol ∨ env.res m < ap.atol))
    (hstop : env.res k / env.res 0 < ap.rtol ∨ env.res k < ap.atol) :
    ∀ fuel i r0 bufs evs divs,
      i + fuel = ap.maxiter + 1 →
      i ≤ k →
      (0 < i → r0 = env.res 0) →
      (picardLoop ap env fuel i r0 bufs evs divs).ok = true ∧
      (picardLoop ap env fuel i r0 bufs evs divs).stopSweep = k ∧
      (picardLoop ap env fuel i r0 bufs evs divs).stopReason = StopReason.tol := by
  intro fuel
  induction fuel with
  | zero =>
      intro i r0 bufs evs divs hfuel hik hr0
      omega
  | succ fuel ih =>
      intro i r0 bufs evs divs hfuel hik hr0
      have hnzi : ¬ env.res i = 0 := hnz i hik
      have hr0i : (if i = 0 then env.res i else r0) = env.res 0 := by
        by_cases hi : i = 0
        · rw [if_pos hi, hi]
        · rw [if_neg hi]
          exact hr0 (Nat.pos_of_ne_zero hi)
      rcases Nat.lt_or_ge i k with hlt | hge
      · have hcond : ¬ (env.res i / (if i = 0 then env.res i else r0) < ap.rtol ∨
            env.res i < ap.atol) := by
          rw [hr0i]
          exact hbefore i hlt
        have hne : ¬ i = ap.maxiter := by omega
        rw [picardLoop_step_sweep ap env fuel i r0 bufs evs divs hnzi hcond hne]
        exact ih (i + 1) (if i = 0 then env.res i else r0) _ _ _
          (by omega) (by omega) (fun _ => hr0i)
      · have hik' : i = k := Nat.le_antisymm hik hge
        subst hik'
        have hcond : env.res i / (if i = 0 then env.res i else r0) < ap.rtol ∨
            env.res i < ap.atol := by
          rw [hr0i]
          exact hstop
        rw [picardLoop_step_tol ap env fuel i r0 bufs evs divs hnzi hcond]
        exact ⟨rfl, rfl, rfl⟩

/-- Stop characterization, exhaustion case: if the residual is nonzero
and the strict criterion never holds through sweep `maxiter`, the loop
raises at sweep `maxiter`. -/
lemma picardLoop_fail_exhaust (ap : AdjointProblem) (env : Env)
    (hnz : ∀ m, m ≤ ap.maxiter → env.res m ≠ 0)
    (hno : ∀ m, m ≤ ap.maxiter →
      ¬ (env.res m / env.res 0 < ap.rtol ∨ env.res m < ap.atol)) :
    ∀ fuel i r0 bufs evs divs,
      i + fuel = ap.maxiter + 1 →
      i ≤ ap.maxiter →
      (0 < i → r0 = env.res 0) →
      (picardLoop ap env fuel i r0 bufs evs divs).ok = false ∧
      (picardLoop ap env fuel i r0 bufs evs divs).stopSweep = ap.maxiter ∧
      (picardLoop ap env fuel i r0 bufs evs divs).stopReason = StopReason.fail := by
  intro fuel
  induction fuel with
  | zero =>
      intro i r0 bufs evs divs hfuel hik hr0
      omega
  | succ fuel ih =>
      intro i r0 bufs evs divs hfuel hik hr0
      have hnzi : ¬ env.res i = 0 := hnz i hik
      have hr0i : (if i = 0 then env.res i else r0) = env.res 0 := by
        by_cases hi : i = 0
        · rw [if_pos hi, hi]
        · rw [if_neg hi]
          exact hr0 (Nat.pos_of_ne_zero hi)
      have hcond : ¬ (env.res i / (if i = 0 then env.res i else r0) < ap.rtol ∨
          env.res i < ap.atol) := by
        rw [hr0i]
        exact hno i hik
      by_cases h2 : i = ap.maxiter
      · rw [picardLoop_step_fail ap env fuel i r0 bufs evs divs hnzi hcond h2]
        exact ⟨rfl, h2, rfl⟩
      · rw [picardLoop_step_sweep ap env fuel i r0 bufs evs divs hnzi hcond h2]
        exact ih (i + 1) (if i = 0 then env.res i else r0) _ _ _
          (by omega) (by omega) (fun _ => hr0i)

/-- Divisor characterization: every denominator the loop ever uses in
`res / res_0` is the reference residual recorded at sweep 0, and it is
strictly positive when the residual values are nonnegative. -/
lemma picardLoop_divisors (ap : AdjointProblem) (env : Env)
    (h0 : 0 ≤ env.res 0) :
    ∀ fuel i r0 bufs evs divs,
      (0 < i → r0 = env.res 0) →
      (0 < i → env.res 0 ≠ 0) →
      (∀ d ∈ divs, 0 < d ∧ d = env.res 0) →
      ∀ d ∈ (picardLoop ap env fuel i r0 bufs evs divs).divisors,
        0 < d ∧ d = env.res 0 := by
  intro fuel
  induction fuel with
  | zero =>
      intro i r0 bufs evs divs _ _ hdivs
      simpa [picardLoop] using hdivs
  | succ fuel ih =>
      intro i r0 bufs evs divs hr0 hnz0 hdivs
      by_cases hz : env.res i = 0
      · rw [picardLoop_step_zero ap env fuel i r0 bufs evs divs hz]
        exact hdivs
      · have hr0i : (if i = 0 then env.res i else r0) = env.res 0 := by
          by_cases hi : i = 0
          · rw [if_pos hi, hi]
          · rw [if_neg hi]
            exact hr0 (Nat.pos_of_ne_zero hi)
        have hnzref : env.res 0 ≠ 0 := by
          by_cases hi : i = 0
          · rw [← hi]
            exact hz
          · exact hnz0 (Nat.pos_of_ne_zero hi)
        have hpos : 0 < env.res 0 := lt_of_le_of_ne h0 (Ne.symm hnzref)
        have hdivs' : ∀ d ∈ divs ++ [if i = 0 then env.res i else r0],
            0 < d ∧ d = env.res 0 := by
          intro d hd
          rcases List.mem_append.mp hd with hd | hd
          · exact hdivs d hd
          · have : d = env.res 0 := by
              rw [List.mem_singleton.mp hd, hr0i]
            exact ⟨this ▸ hpos, this⟩
        by_cases h1 : env.res i / (if i = 0 then env.res i else r0) < ap.rtol ∨
            env.res i < ap.atol
        · rw [picardLoop_step_tol ap env fuel i r0 bufs evs divs hz h1]
          exact hdivs'
        · by_cases h2 : i = ap.maxiter
          · rw [picardLoop_step_fail ap env fuel i r0 bufs evs divs hz h1 h2]
            exact hdivs'
          · rw [picardLoop_step_sweep ap env fuel i r0 bufs evs divs hz h1 h2]
            exact ih (i + 1) (if i = 0 then env.res i else r0) _ _ _
              (fun _ => hr0i) (fun _ => hnzref) hdivs'

/-- Cached call: with a valid solution present, `solve` only invokes the
state problem and returns the unchanged state and buffers. -/
lemma solve_cached (ap : AdjointProblem) (env : Env)
    (h : ap.has_solution = true) :
    ap.solve env = ⟨true, ap, ap.adjoints, [Event.ensureState], []⟩ := by
  simp [AdjointProblem.solve, h]

/-- Successful computing call: starting without a cached solution, a
call that returns sets the cache flag, increments the counter by one and
returns exactly the stored adjoint buffers. -/
lemma solve_ok_state (ap : AdjointProblem) (env : Env)
    (h : ap.has_solution = false) (hok : (ap.solve env).ok = true) :
    (ap.solve env).state.has_solution = true ∧
    (ap.solve env).state.number_of_solves = ap.number_of_solves + 1 ∧
    (ap.solve env).state.adjoints = (ap.solve env).ret := by
  cases hp : env.state_is_picard with
  | false => simp [AdjointProblem.solve, h, hp]
  | true =>
      by_cases hpr : (runPicard ap env).ok = true
      · simp [AdjointProblem.solve, h, hp, hpr]
      · exfalso
        rw [AdjointProblem.solve] at hok
        simp [h, hp, hpr] at hok

/-- Failing call: `solve` returns `ok = false` only on the Picard path,
with the cache flag and counter untouched. -/
lemma solve_fail_state (ap : AdjointProblem) (env : Env)
    (hfail : (ap.solve env).ok = false) :
    ap.has_solution = false ∧
    env.state_is_picard = true ∧
    (runPicard ap env).ok = false ∧
    (ap.solve env).state.has_solution = false ∧
    (ap.solve env).state.number_of_solves = ap.number_of_solves := by
  cases hcache : ap.has_solution with
  | true =>
      rw [solve_cached ap env hcache] at hfail
      simp at hfail
  | false =>
      cases hp : env.state_is_picard with
      | false =>
          rw [AdjointProblem.solve] at hfail
          simp [hcache, hp] at hfail
      | true =>
          by_cases hpr : (runPicard ap env).ok = true
          · rw [AdjointProblem.solve] at hfail
            simp [hcache, hp, hpr] at hfail
          · have hpr' : (runPicard ap env).ok = false := by
              simpa using hpr
            refine ⟨rfl, rfl, hpr', ?_, ?_⟩ <;>
              simp [AdjointProblem.solve, hcache, hp, hpr', hcache]

/-- Folded trace characterization for the whole Picard run. -/
lemma runPicard_events (ap : AdjointProblem) (env : Env) :
    (runPicard ap env).events =
      List.flatten (List.replicate ((runPicard ap env).stopSweep)
        ((revIndices env.state_dim).map Event.picardSolve)) := by
  obtain ⟨-, hev⟩ := picardLoop_events ap env (ap.maxiter + 1) 0 0 ap.adjoints [] []
  rw [runPicard]
  simpa using hev

/-- On the Picard path, `solve` succeeds exactly when the loop does. -/
lemma solve_picard_ok (ap : AdjointProblem) (env : Env)
    (h : ap.has_solution = false) (hp : env.state_is_picard = true) :
    (ap.solve env).ok = (runPicard ap env).ok := by
  cases hpr : (runPicard ap env).ok <;>
    simp [AdjointProblem.solve, h, hp, hpr]

/-- C8: constructed from a configuration that omits every
`StateEquation` entry, the solver parameters take the defaults:
relative tolerance `1e-10`, absolute tolerance `1e-12`, maximum Picard
sweeps `50`, verbose flag off. -/
theorem init_default_values :
    (initAdjointProblem ⟨none, none, none, none⟩ []).rtol = 1 / 10 ^ 10 ∧
    (initAdjointProblem ⟨none, none, none, none⟩ []).atol = 1 / 10 ^ 12 ∧
    (initAdjointProblem ⟨none, none, none, none⟩ []).maxiter = 50 ∧
    (initAdjointProblem ⟨none, none, none, none⟩ []).picard_verbose = false :=
  ⟨rfl, rfl, rfl, rfl⟩

/-- C5: if the combined residual computed at sweep 0 is exactly 0, the
Picard iteration converges at sweep 0 through the exact-zero break, with
zero sweeps performed, no subsystem solve event, and buffers untouched. -/
theorem picard_zero_fast_path (ap : AdjointProblem) (env : Env)
    (h : env.res 0 = 0) :
    (runPicard ap env).ok = true ∧
    (runPicard ap env).stopReason = StopReason.zeroRes ∧
    (runPicard ap env).stopSweep = 0 ∧
    (runPicard ap env).events = [] ∧
    (runPicard ap env).buffers = ap.adjoints := by
  rw [runPicard, picardLoop_step_zero ap env ap.maxiter 0 0 ap.adjoints [] [] h]
  exact ⟨rfl, rfl, rfl, rfl, rfl⟩

def apC5 : AdjointProblem := ⟨1 / 10 ^ 10, 1 / 10 ^ 12, 50, false, 0, false, [3, 7]⟩

def envC5 : Env := ⟨2, true, fun _ => 0, fun _ b => b⟩

/-- Witness for C5 at a concrete zero-residual environment. -/
theorem picard_zero_fast_path_witness :
    (runPicard apC5 envC5).ok = true ∧
    (runPicard apC5 envC5).stopReason = StopReason.zeroRes ∧
    (runPicard apC5 envC5).stopSweep = 0 ∧
    (runPicard apC5 envC5).events = [] ∧
    (runPicard apC5 envC5).buffers = apC5.adjoints :=
  picard_zero_fast_path apC5 envC5 rfl

/-- C9: whenever the ratio `res / res_0` is evaluated, the denominator
is the reference residual recorded at sweep 0 and is strictly positive
(the norm values are nonnegative, and an exactly-zero residual exits the
loop before the reference is recorded or any ratio is computed). -/
theorem picard_reference_recorded_positive (ap : AdjointProblem) (env : Env)
    (h0 : 0 ≤ env.res 0) :
    ∀ d ∈ (runPicard ap env).divisors, 0 < d ∧ d = env.res 0 := by
  rw [runPicard]
  exact picardLoop_divisors ap env h0 (ap.maxiter + 1) 0 0 ap.adjoints [] []
    (fun h => absurd h (lt_irrefl 0)) (fun h => absurd h (lt_irrefl 0))
    (by intro d hd; exact absurd hd (List.not_mem_nil d))

def apC9 : AdjointProblem := ⟨2, 1 / 2, 5, false, 0, false, []⟩

def envC9 : Env := ⟨1, true, fun _ => 1, fun _ b => b⟩

/-- Witness for C9: the run stops at sweep 0 by tolerance after one
ratio evaluation whose recorded denominator is the reference `1`. -/
theorem picard_reference_recorded_positive_witness :
    0 < (1 : ℚ) ∧ (1 : ℚ) = envC9.res 0 :=
  picard_reference_recorded_positive apC9 envC9 (by norm_num [envC9]) 1 (by
    have h1 : runPicard apC9 envC9 =
        ⟨true, 0, StopReason.tol, apC9.adjoints, [], [] ++ [if 0 = 0 then envC9.res 0 else 0]⟩ := by
      rw [runPicard, show apC9.maxiter + 1 = 5 + 1 from rfl]
      exact picardLoop_step_tol apC9 envC9 5 0 0 apC9.adjoints [] []
        (by norm_num [envC9]) (by norm_num [envC9, apC9])
    rw [h1]
    simp [envC9])

/-- C2: a residual sequence that is never exactly zero and never meets
either strict tolerance through sweep `maxiter` makes the Picard loop
raise the fatal `SystemExit` exactly at sweep index `maxiter`, after
exactly `maxiter` full sweeps of `state_dim` subsystem solves (none at
the failing iteration). -/
theorem picard_exhaustion_fails_at_max (ap : AdjointProblem) (env : Env)
    (hnz : ∀ m, m ≤ ap.maxiter → env.res m ≠ 0)
    (hno : ∀ m, m ≤ ap.maxiter →
      ¬ (env.res m / env.res 0 < ap.rtol ∨ env.res m < ap.atol)) :
    (runPicard ap env).ok = false ∧
    (runPicard ap env).stopReason = StopReason.fail ∧
    (runPicard ap env).stopSweep = ap.maxiter ∧
    (runPicard ap env).events.length = ap.maxiter * env.state_dim := by
  obtain ⟨hok, hsweep, hreason⟩ :=
    picardLoop_fail_exhaust ap env hnz hno (ap.maxiter + 1) 0 0 ap.adjoints [] []
      (by omega) (Nat.zero_le _) (fun h => absurd h (lt_irrefl 0))
  rw [runPicard]
  refine ⟨hok, hreason, hsweep, ?_⟩
  have hev := runPicard_events ap env
  rw [runPicard] at hev
  rw [hev, hsweep]
  simp [length_flatten_replicate, revIndices]

def apC2 : AdjointProblem := ⟨1 / 4, 1 / 4, 2, false, 0, false, []⟩

def envC2 : Env := ⟨2, true, fun _ => 1, fun _ b => b⟩

/-- Witness for C2: constant residual 1 against tolerances 1/4 with
`maxiter = 2` fails at sweep 2 after 2 sweeps of 2 solves. -/
theorem picard_exhaustion_fails_at_max_witness :
    (runPicard apC2 envC2).ok = false ∧
    (runPicard apC2 envC2).stopReason = StopReason.fail ∧
    (runPicard apC2 envC2).stopSweep = apC2.maxiter ∧
    (runPicard apC2 envC2).events.length = apC2.maxiter * envC2.state_dim :=
  picard_exhaustion_fails_at_max apC2 envC2
    (by intro m hm; norm_num [envC2])
    (by intro m hm; norm_num [envC2, apC2])

/-- C1 (amended): the tolerance criterion is strict and unguarded. At
every sweep index `i ≥ 0` with nonzero residual — sweep 0 included —
the loop transitions to converged through the tolerance break exactly
when `res / res_0 < rtol` or `res < atol` with strict inequalities,
where `res_0` is the residual recorded at sweep 0 (the current residual
itself at sweep 0, so the relative test there compares `1 < rtol`); for
a residual sequence whose first sweep meeting the strict criterion is
`k ≤ maxiter`, iteration stops exactly at sweep `k`. -/
theorem picard_tol_strict_stop (ap : AdjointProblem) (env : Env) (k : ℕ)
    (hk : k ≤ ap.maxiter)
    (hnz : ∀ m, m ≤ k → env.res m ≠ 0)
    (hbefore : ∀ m, m < k → ¬ (env.res m / env.res 0 < ap.rtol ∨ env.res m < ap.atol))
    (hstop : env.res k / env.res 0 < ap.rtol ∨ env.res k < ap.atol) :
    (runPicard ap env).ok = true ∧
    (runPicard ap env).stopSweep = k ∧
    (runPicard ap env).stopReason = StopReason.tol := by
  rw [runPicard]
  exact picardLoop_tol_stop ap env k hk hnz hbefore hstop (ap.maxiter + 1) 0 0 ap.adjoints [] []
    (by omega) (Nat.zero_le k) (fun h => absurd h (lt_irrefl 0))

def apC1x : AdjointProblem := ⟨1 / 4, 1, 5, false, 0, false, []⟩

def envC1x : Env := ⟨1, true, fun _ => 1 / 2, fun _ b => b⟩

def apC1y : AdjointProblem := ⟨1 / 4, 1 / 100, 5, false, 0, false, []⟩

def envC1y : Env :=
  ⟨1, true, fun i => if i = 0 then 1 else if i = 1 then 1 / 4 else 1 / 32, fun _ b => b⟩

/-- Counterexample to C1 as stated: first, with initial residual `1/2`
below `atol = 1`, the tolerance break fires at sweep 0, so tolerance
convergence does occur at sweep 0; second, a sequence whose relative
ratio at sweep 1 equals `rtol` exactly (so the claimed non-strict
`residual / reference ≤ rtol` holds at sweep 1 > 0) does not stop at
sweep 1 — the loop continues and stops at sweep 2. -/
theorem picard_tol_claim_counterexample :
    ((runPicard apC1x envC1x).stopReason = StopReason.tol ∧
      (runPicard apC1x envC1x).stopSweep = 0) ∧
    (envC1y.res 1 / envC1y.res 0 = apC1y.rtol ∧
      1 < apC1y.maxiter ∧
      (runPicard apC1y envC1y).stopSweep = 2) := by
  constructor
  · obtain ⟨-, hs, hr⟩ := picardLoop_tol_stop apC1x envC1x 0
      (by norm_num [apC1x])
      (by intro m hm; norm_num [envC1x])
      (by intro m hm; omega)
      (by norm_num [envC1x, apC1x])
      (apC1x.maxiter + 1) 0 0 apC1x.adjoints [] []
      (by omega) (Nat.zero_le _) (fun h => absurd h (lt_irrefl 0))
    exact ⟨hr, hs⟩
  · refine ⟨by norm_num [envC1y, apC1y], by norm_num [apC1y], ?_⟩
    obtain ⟨-, hs, -⟩ := picardLoop_tol_stop apC1y envC1y 2
      (by norm_num [apC1y])
      (by intro m hm; interval_cases m <;> norm_num [envC1y])
      (by intro m hm; interval_cases m <;> norm_num [envC1y, apC1y])
      (by norm_num [envC1y, apC1y])
      (apC1y.maxiter + 1) 0 0 apC1y.adjoints [] []
      (by omega) (Nat.zero_le _) (fun h => absurd h (lt_irrefl 0))
    exact hs

def apC1w : AdjointProblem := ⟨1 / 4, 1 / 8, 5, false, 0, false, []⟩

def envC1w : Env := ⟨1, true, fun i => if i = 0 then 1 else 1 / 16, fun _ b => b⟩

/-- Witness for the amended C1: the strict criterion first holds at
sweep 1 and the loop stops there with the tolerance break. -/
theorem picard_tol_strict_stop_witness :
    (runPicard apC1w envC1w).ok = true ∧
    (runPicard apC1w envC1w).stopSweep = 1 ∧
    (runPicard apC1w envC1w).stopReason = StopReason.tol :=
  picard_tol_strict_stop apC1w envC1w 1
    (by norm_num [apC1w])
    (by intro m hm; interval_cases m <;> norm_num [envC1w])
    (by intro m hm; interval_cases m; norm_num [envC1w, apC1w])
    (by norm_num [envC1w, apC1w])

/-- C4: the per-subsystem adjoint solves go in strictly decreasing index
order `N-1, N-2, ..., 0`: the visiting order is the reversed index
range, it is strictly decreasing, the direct pass performs exactly one
such block, and every Picard sweep performs one such block. -/
theorem adjoint_solves_reverse_order (env : Env) (ap : AdjointProblem)
    (h : ap.has_solution = false) :
    revIndices env.state_dim = (List.range env.state_dim).reverse ∧
    List.Chain' (fun a b => b < a) (revIndices env.state_dim) ∧
    (env.state_is_picard = false →
      (ap.solve env).events =
        Event.ensureState :: (revIndices env.state_dim).map Event.directSolve) ∧
    (env.state_is_picard = true →
      (ap.solve env).events =
        Event.ensureState ::
          List.flatten (List.replicate ((runPicard ap env).stopSweep)
            ((revIndices env.state_dim).map Event.picardSolve))) := by
  refine ⟨revIndices_eq_reverse_range _, revIndices_chain _, ?_, ?_⟩
  · intro hp
    simp [AdjointProblem.solve, h, hp]
  · intro hp
    have hev := runPicard_events ap env
    cases hpr : (runPicard ap env).ok <;>
      simp [AdjointProblem.solve, h, hp, hpr, ← hev]

def apC4 : AdjointProblem := ⟨1 / 4, 1 / 4, 2, false, 0, false, [9]⟩

def envC4d : Env := ⟨3, false, fun _ => 1, fun j b => b.map (fun x => x + j)⟩

def apC4p : AdjointProblem := ⟨1 / 4, 1 / 4, 2, false, 0, false, [9]⟩

def envC4p : Env := ⟨3, true, fun _ => 1, fun j b => b.map (fun x => x + j)⟩

/-- Witness for C4 on both strategies at `N = 3`. -/
theorem adjoint_solves_reverse_order_witness :
    ((apC4.solve envC4d).events =
      Event.ensureState :: (revIndices envC4d.state_dim).map Event.directSolve) ∧
    ((apC4p.solve envC4p).events =
      Event.ensureState ::
        List.flatten (List.replicate ((runPicard apC4p envC4p).stopSweep)
          ((revIndices envC4p.state_dim).map Event.picardSolve))) :=
  ⟨(adjoint_solves_reverse_order envC4d apC4 rfl).2.2.1 rfl,
   (adjoint_solves_reverse_order envC4p apC4p rfl).2.2.2 rfl⟩

/-- C6: a `solve` call that starts with a stale cache and completes
successfully (either strategy) sets the cache flag and increments the
solve counter by exactly one. -/
theorem solve_success_marks_cache (ap : AdjointProblem) (env : Env)
    (h : ap.has_solution = false) (hok : (ap.solve env).ok = true) :
    (ap.solve env).state.has_solution = true ∧
    (ap.solve env).state.number_of_solves = ap.number_of_solves + 1 :=
  ⟨(solve_ok_state ap env h hok).1, (solve_ok_state ap env h hok).2.1⟩

def apC6 : AdjointProblem := ⟨1, 1, 1, false, 7, false, [2]⟩

def envC6 : Env := ⟨1, false, fun _ => 1, fun _ b => b⟩

/-- Witness for C6 on the direct strategy. -/
theorem solve_success_marks_cache_witness :
    (apC6.solve envC6).state.has_solution = true ∧
    (apC6.solve envC6).state.number_of_solves = apC6.number_of_solves + 1 :=
  solve_success_marks_cache apC6 envC6 rfl rfl

/-- C7: every `solve` call, whatever the cache state, invokes the state
problem first — the trace starts with `ensureState` — and a cached call
does nothing else. -/
theorem solve_calls_state_problem_first (ap : AdjointProblem) (env : Env) :
    (ap.solve env).events.head? = some Event.ensureState ∧
    (ap.has_solution = true → (ap.solve env).events = [Event.ensureState]) := by
  constructor
  · cases hcache : ap.has_solution with
    | false =>
        cases hp : env.state_is_picard with
        | false => simp [AdjointProblem.solve, hcache, hp]
        | true =>
            cases hpr : (runPicard ap env).ok <;>
              simp [AdjointProblem.solve, hcache, hp, hpr]
    | true =>
        rw [solve_cached ap env hcache]
        rfl
  · intro hcache
    rw [solve_cached ap env hcache]

def apC7 : AdjointProblem := ⟨1, 1, 1, false, 4, true, [2, 3]⟩

def envC7 : Env := ⟨2, true, fun _ => 1, fun _ b => b⟩

/-- Witness for C7 on a cached call. -/
theorem solve_calls_state_problem_first_witness :
    (apC7.solve envC7).events = [Event.ensureState] :=
  (solve_calls_state_problem_first apC7 envC7).2 rfl

/-- C3: from a stale cache, after the first successful `solve` the
state no longer changes: every later call returns the same buffers as
the first, performs no subsystem solve (only the state-problem call
appears in its trace), and the counter stays at its once-incremented
value. -/
theorem repeated_solve_idempotent (env : Env) (ap : AdjointProblem)
    (h : ap.has_solution = false) (hok : (ap.solve env).ok = true) :
    ∀ n, 1 ≤ n →
      solveN env ap n = (ap.solve env).state ∧
      ((solveN env ap n).solve env).ret = (ap.solve env).ret ∧
      (solveN env ap n).number_of_solves = ap.number_of_solves + 1 ∧
      ((solveN env ap n).solve env).events = [Event.ensureState] := by
  obtain ⟨hflag, hcount, hadj⟩ := solve_ok_state ap env h hok
  have key : ∀ n, 1 ≤ n → solveN env ap n = (ap.solve env).state := by
    intro n hn
    induction n with
    | zero => omega
    | succ n ih =>
        by_cases hn1 : 1 ≤ n
        · show ((solveN env ap n).solve env).state = (ap.solve env).state
          rw [ih hn1, solve_cached _ env hflag]
        · have hn0 : n = 0 := by omega
          subst hn0
          rfl
  intro n hn
  refine ⟨key n hn, ?_, ?_, ?_⟩
  · rw [key n hn, solve_cached _ env hflag]
    exact hadj
  · rw [key n hn]
    exact hcount
  · rw [key n hn, solve_cached _ env hflag]

def apC3 : AdjointProblem := ⟨1, 1, 1, false, 0, false, [5]⟩

def envC3 : Env := ⟨2, false, fun _ => 1, fun j b => b.map (fun x => x * (j + 2 : ℚ))⟩

/-- Witness for C3 with two calls on the direct strategy. -/
theorem repeated_solve_idempotent_witness :
    solveN envC3 apC3 2 = (apC3.solve envC3).state ∧
    ((solveN envC3 apC3 2).solve envC3).ret = (apC3.solve envC3).ret ∧
    (solveN envC3 apC3 2).number_of_solves = apC3.number_of_solves + 1 ∧
    ((solveN envC3 apC3 2).solve envC3).events = [Event.ensureState] :=
  repeated_solve_idempotent envC3 apC3 rfl rfl 2 (by norm_num)

/-- C10: when `solve` fails (the Picard `SystemExit`), the raise happens
before the cache flag or the counter is touched: the returned state
still has a stale cache and the original counter, so a later call would
recompute. -/
theorem solve_failure_preserves_stale_cache (ap : AdjointProblem) (env : Env)
    (hfail : (ap.solve env).ok = false) :
    (ap.solve env).state.has_solution = false ∧
    (ap.solve env).state.number_of_solves = ap.number_of_solves :=
  ⟨(solve_fail_state ap env hfail).2.2.2.1, (solve_fail_state ap env hfail).2.2.2.2⟩

def apC10 : AdjointProblem := ⟨1 / 4, 1 / 4, 0, false, 3, false, []⟩

def envC10 : Env := ⟨1, true, fun _ => 1, fun _ b => b⟩

/-- Witness for C10: `maxiter = 0` with constant residual 1 fails on the
first loop iteration, leaving flag and counter untouched. -/
theorem solve_failure_preserves_stale_cache_witness :
    (apC10.solve envC10).state.has_solution = false ∧
    (apC10.solve envC10).state.number_of_solves = apC10.number_of_solves :=
  solve_failure_preserves_stale_cache apC10 envC10 (by
    have hpr : (runPicard apC10 envC10).ok = false :=
      (picardLoop_fail_exhaust apC10 envC10
        (by intro m hm; norm_num [envC10])
        (by intro m hm; norm_num [envC10, apC10])
        (apC10.maxiter + 1) 0 0 apC10.adjoints [] []
        (by omega) (Nat.zero_le _) (fun hlt => absurd hlt (lt_irrefl 0))).1
    rw [solve_picard_ok apC10 envC10 rfl rfl]
    exact hpr)
